import Mathlib

/-!
A shallow embedding of the manifest-interpretation core of `vsd`
(`src/playlist.rs`), together with proofs about the embedded operations.

Modelling conventions:
* Rust `u64`/`usize` values are `Nat`; where the source performs arithmetic
  that can leave the 64-bit range, the result is reduced `% 2^64`,
  mirroring release-mode wrapping semantics (debug builds would panic).
* Rust `f32` fields (`duration`, `channels`, `frame_rate`) are modelled as
  `ℚ`; `f32::total_cmp` is modelled as the rational order, which agrees with
  it on the non-NaN, finite values these fields hold.
* Rust `String` is Lean `String`; the string operations the source uses
  (`starts_with`, `ends_with`, `to_lowercase`, `trim`, `split`,
  `parse::<usize>`, byte slicing via `get(0..2)`) are re-implemented here on
  `String.data` so that every definition evaluates inside the kernel.
* Fallible code (`Result`, panics) returns `Except`/`Option`.
-/

namespace Vsd

/-- The modulus of Rust `u64`/`usize` (64-bit) arithmetic. -/
def U64 : Nat := 18446744073709551616

instance {ε α : Type} [DecidableEq ε] [DecidableEq α] : DecidableEq (Except ε α)
  | .ok a, .ok b =>
    if h : a = b then .isTrue (by rw [h]) else .isFalse (by intro hh; cases hh; exact h rfl)
  | .ok _, .error _ => .isFalse (by intro h; cases h)
  | .error _, .ok _ => .isFalse (by intro h; cases h)
  | .error e, .error f =>
    if h : e = f then .isTrue (by rw [h]) else .isFalse (by intro hh; cases hh; exact h rfl)

/-! ### String primitives (models of the Rust std string operations) -/

/-- Model of `str::starts_with` on char lists: does `s` start with `pat`? -/
def chStarts : List Char → List Char → Bool
  | _, [] => true
  | [], _ :: _ => false
  | c :: cs, p :: ps => c == p && chStarts cs ps

/-- Model of Rust `str::starts_with`. -/
def rsStartsWith (s pat : String) : Bool := chStarts s.data pat.data

/-- Model of Rust `str::ends_with`. -/
def rsEndsWith (s pat : String) : Bool := chStarts s.data.reverse pat.data.reverse

/-- Model of Rust `str::to_lowercase` (per-char lowercasing; the language
tags and URIs this repository compares are ASCII). -/
def rsToLower (s : String) : String := ⟨s.data.map Char.toLower⟩

/-- ASCII whitespace, for the model of `str::trim`. -/
def isWsp (c : Char) : Bool := c == ' ' || c == '\t' || c == '\n' || c == '\r'

/-- Model of Rust `str::trim`. -/
def rsTrim (s : String) : String :=
  ⟨((s.data.dropWhile isWsp).reverse.dropWhile isWsp).reverse⟩

/-- Split a char list at every `,` (model of Rust `str::split(',')`:
`""` gives `[""]`, separators at the ends give empty pieces). -/
def splitCommaAux : List Char → List Char → List String
  | [], acc => [⟨acc.reverse⟩]
  | c :: cs, acc =>
    if c == ',' then (⟨acc.reverse⟩ : String) :: splitCommaAux cs []
    else splitCommaAux cs (c :: acc)

/-- Model of Rust `str::split(',')`. -/
def rsSplitComma (s : String) : List String := splitCommaAux s.data []

/-- Digit run accumulator for the model of `str::parse::<usize>`. -/
def parseDigitsAux : List Char → Nat → Option Nat
  | [], acc => some acc
  | c :: cs, acc =>
    if '0' ≤ c ∧ c ≤ '9' then parseDigitsAux cs (acc * 10 + (c.toNat - 48))
    else none

/-- Model of Rust `str::parse::<usize>` (on a 64-bit platform): an optional
leading `+`, then a non-empty digit run, rejected on overflow. -/
def rsParseUsize (s : String) : Option Nat :=
  let cs := match s.data with
    | '+' :: rest => rest
    | cs => cs
  match cs with
  | [] => none
  | _ =>
    match parseDigitsAux cs 0 with
    | some n => if n < U64 then some n else none
    | none => none

/-- UTF-8 encoding of one char (arithmetic form, no bitwise primitives). -/
def utf8Bytes (c : Char) : List Nat :=
  let n := c.toNat
  if n < 128 then [n]
  else if n < 2048 then [192 + n / 64, 128 + n % 64]
  else if n < 65536 then [224 + n / 4096, 128 + (n / 64) % 64, 128 + n % 64]
  else [240 + n / 262144, 128 + (n / 4096) % 64, 128 + (n / 64) % 64, 128 + n % 64]

/-- The UTF-8 bytes of a string. -/
def strUtf8 (s : String) : List Nat :=
  s.data.foldr (fun c acc => utf8Bytes c ++ acc) []

/-- Model of Rust `str::get(0..2)`: the first two UTF-8 bytes, or `none`
when the string is shorter than two bytes or byte index 2 is not a char
boundary (a continuation byte lies there). -/
def rustGet02 (s : String) : Option (List Nat) :=
  let bs := strUtf8 s
  if bs.length < 2 then none
  else
    match bs.drop 2 with
    | [] => some (bs.take 2)
    | b :: _ => if 128 ≤ b ∧ b < 192 then none else some (bs.take 2)

/-! ### Data model (`src/playlist.rs` lines 9–79, 155–170, 421–426) -/

/-- `MediaType` (playlist.rs 9–16). -/
inductive MediaType where
  | Audio
  | Subtitles
  | Undefined
  | Video
deriving DecidableEq

/-- `PlaylistType` (playlist.rs 33–38). -/
inductive PlaylistType where
  | Dash
  | Hls
deriving DecidableEq

/-- `ByteRange` (playlist.rs 40–44). -/
structure ByteRange where
  length : Nat
  offset : Option Nat
deriving DecidableEq

/-- `Map` (playlist.rs 46–50). -/
structure Map where
  uri : String
  byte_range : Option ByteRange
deriving DecidableEq

/-- `KeyMethod` (playlist.rs 52–59). -/
inductive KeyMethod where
  | Aes128
  | Cenc
  | None
  | Other (s : String)
  | SampleAes
deriving DecidableEq

/-- `Key` (playlist.rs 61–68). -/
structure Key where
  default_kid : Option String
  iv : Option String
  key_format : Option String
  method : KeyMethod
  uri : String
deriving DecidableEq

/-- `Segment` (playlist.rs 70–79). -/
structure Segment where
  byte_range : Option ByteRange
  duration : ℚ
  key : Option Key
  map : Option Map
  uri : String
deriving DecidableEq

/-- `MediaPlaylist` (playlist.rs 155–170). -/
structure MediaPlaylist where
  bandwidth : Option Nat
  channels : Option ℚ
  codecs : Option String
  extension : Option String
  frame_rate : Option ℚ
  i_frame : Bool
  language : Option String
  live : Bool
  media_type : MediaType
  playlist_type : PlaylistType
  resolution : Option (Nat × Nat)
  segments : List Segment
  uri : String
deriving DecidableEq

/-- `MasterPlaylist` (playlist.rs 421–426). -/
structure MasterPlaylist where
  playlist_type : PlaylistType
  uri : String
  streams : List MediaPlaylist
deriving DecidableEq

/-! ### Resource resolver: URLs (playlist.rs 81–112) -/

/-- Modelled from the spec: the URL type is the external `reqwest::Url`
crate, outside this repository. A URL is its string; parsing succeeds
exactly on scheme-qualified absolute URLs. -/
def isAbsUrl (s : String) : Bool :=
  rsStartsWith s "http://" || rsStartsWith s "https://" || rsStartsWith s "ftp://"

/-- Modelled from the spec: `str::parse::<Url>` of the url crate — succeeds
iff the string is an absolute URL. -/
def parseUrl (s : String) : Option String :=
  if isAbsUrl s then some s else none

/-- The base URL up to and including its last `/`. -/
def dropLastSegment (base : String) : String :=
  ⟨(base.data.reverse.dropWhile (fun c => !(c == '/'))).reverse⟩

/-- Modelled from the spec: `Url::join` of the url crate — an absolute
reference replaces the base, a relative one replaces the base's last path
segment. -/
def joinUrl (base ref : String) : String :=
  if isAbsUrl ref then ref else dropLastSegment base ++ ref

/-- Errors surfaced by the resolver (`anyhow` propagation of url-crate
failures in the source). -/
inductive UrlError where
  | invalid_url
deriving DecidableEq

/-- `Segment::seg_url` (playlist.rs 82–88). -/
def Segment.seg_url (self : Segment) (baseurl : String) : Except UrlError String :=
  if rsStartsWith self.uri "http" || rsStartsWith self.uri "ftp" then
    match parseUrl self.uri with
    | some u => .ok u
    | none => .error .invalid_url
  else .ok (joinUrl baseurl self.uri)

/-- `Segment::map_url` (playlist.rs 90–100). Note that the source tests
`self.uri` (the segment's own uri), not `map.uri`, for absoluteness. -/
def Segment.map_url (self : Segment) (baseurl : String) : Except UrlError (Option String) :=
  match self.map with
  | some map =>
    if rsStartsWith self.uri "http" || rsStartsWith self.uri "ftp" then
      match parseUrl map.uri with
      | some u => .ok (some u)
      | none => .error .invalid_url
    else .ok (some (joinUrl baseurl map.uri))
  | none => .ok none

/-- `Segment::key_url` (playlist.rs 102–112). As with `map_url`, the source
tests `self.uri`, not `key.uri`. -/
def Segment.key_url (self : Segment) (baseurl : String) : Except UrlError (Option String) :=
  match self.key with
  | some key =>
    if rsStartsWith self.uri "http" || rsStartsWith self.uri "ftp" then
      match parseUrl key.uri with
      | some u => .ok (some u)
      | none => .error .invalid_url
    else .ok (some (joinUrl baseurl key.uri))
  | none => .ok none

/-! ### Resource resolver: byte ranges (playlist.rs 114–152) -/

/-- The `format!("bytes={}-{}", start, end)` header of the source. -/
def bytesHeader (start e : Nat) : String :=
  "bytes=" ++ toString start ++ "-" ++ toString e

/-- The `(start, end)` pair both byte-range functions compute
(playlist.rs 118–125 and 138–145), in wrapping u64 arithmetic. -/
def byteRangeBounds (byte_range : ByteRange) (previous_byterange_end : Nat) : Nat × Nat :=
  let offset := byte_range.offset.getD 0
  if offset = 0 then
    (previous_byterange_end, (previous_byterange_end + byte_range.length + (U64 - 1)) % U64)
  else
    (byte_range.length, (byte_range.length + offset + (U64 - 1)) % U64)

/-- `Segment::seg_range` (playlist.rs 114–131). -/
def Segment.seg_range (self : Segment) (previous_byterange_end : Nat) : Option (String × Nat) :=
  match self.byte_range with
  | some byte_range =>
    let (start, e) := byteRangeBounds byte_range previous_byterange_end
    some (bytesHeader start e, e)
  | none => none

/-- `Segment::map_range` (playlist.rs 133–152). -/
def Segment.map_range (self : Segment) (previous_byterange_end : Nat) : Option (String × Nat) :=
  match self.map with
  | some map =>
    match map.byte_range with
    | some byte_range =>
      let (start, e) := byteRangeBounds byte_range previous_byterange_end
      some (bytesHeader start e, e)
    | none => none
  | none => none

/-! ### Naming/extension resolver (playlist.rs 307–330) -/

/-- `MediaPlaylist::extension` (playlist.rs 307–330); renamed `ext` here
because the structure field `extension` occupies the source name. -/
def MediaPlaylist.ext (self : MediaPlaylist) : String :=
  match self.extension with
  | some ext => ext
  | none =>
    let e : String := match self.playlist_type with
      | .Hls => "ts"
      | .Dash => "m4s"
    match self.segments.head? with
    | none => e
    | some segment =>
      let e := match segment.map with
        | some init => if rsEndsWith init.uri ".mp4" then "mp4" else e
        | none => e
      if rsEndsWith segment.uri ".mp4" then "mp4" else e

/-! ### Rendition ranking engine (playlist.rs 451–532)

The source memoizes each stream's sort keys in tuples
`(stream, language_factor, channels, bandwidth)` before the sort passes;
here the comparators recompute the same keys from the stream, which orders
the very same way. Rust's stable `Vec::sort_by` is `List.mergeSort`, and the
comparator `|x, y| y.key.cmp(&x.key)` (descending by `key`) becomes the
`Bool` relation `key y ≤ key x`. -/

/-- The `language_factor` computed per audio/subtitle stream
(playlist.rs 466–478 and 486–497). `prefer_lang` is the already-lowercased
preference (the source lowercases it once, at lines 456–457). -/
def language_factor (language : Option String) (prefer_lang : Option String) : Nat :=
  match language.map rsToLower, prefer_lang with
  | some playlist_lang, some prefer_lang =>
    if playlist_lang = prefer_lang then 2
    else if rustGet02 playlist_lang = rustGet02 prefer_lang then 1
    else 0
  | _, _ => 0

/-- The video pixel-area key (playlist.rs 503–507): `w * h` in u64. -/
def videoPixels (s : MediaPlaylist) : Nat :=
  match s.resolution with
  | some (w, h) => w * h % U64
  | none => 0

/-- The bandwidth key (playlist.rs 481, 509): `bandwidth.unwrap_or(0)`. -/
def bwKey (s : MediaPlaylist) : Nat := s.bandwidth.getD 0

/-- The audio channels key (playlist.rs 480): `channels.unwrap_or(0.0)`. -/
def chKey (s : MediaPlaylist) : ℚ := s.channels.getD 0

/-- Descending comparison by bandwidth (playlist.rs 516, 518). -/
def bwDesc (x y : MediaPlaylist) : Bool := decide (bwKey y ≤ bwKey x)

/-- Descending comparison by pixel area (playlist.rs 517). -/
def pxDesc (x y : MediaPlaylist) : Bool := decide (videoPixels y ≤ videoPixels x)

/-- Descending comparison by channel count (playlist.rs 519). -/
def chDesc (x y : MediaPlaylist) : Bool := decide (chKey y ≤ chKey x)

/-- Descending comparison by language factor (playlist.rs 520, 521). -/
def lfDesc (prefer_lang : Option String) (x y : MediaPlaylist) : Bool :=
  decide (language_factor y.language prefer_lang ≤ language_factor x.language prefer_lang)

/-- The two stable passes over the video group (playlist.rs 516–517). -/
def sortVideoGroup (l : List MediaPlaylist) : List MediaPlaylist :=
  (l.mergeSort bwDesc).mergeSort pxDesc

/-- The three stable passes over the audio group (playlist.rs 518–520). -/
def sortAudioGroup (prefer_audio_lang : Option String) (l : List MediaPlaylist) :
    List MediaPlaylist :=
  ((l.mergeSort bwDesc).mergeSort chDesc).mergeSort (lfDesc prefer_audio_lang)

/-- The stable pass over the subtitle group (playlist.rs 521). -/
def sortSubtitleGroup (prefer_subs_lang : Option String) (l : List MediaPlaylist) :
    List MediaPlaylist :=
  l.mergeSort (lfDesc prefer_subs_lang)

/-- The per-type partition of `streams` (playlist.rs 464–514: one pass
pushing onto four vectors, i.e. four order-preserving filters). -/
def streamsOfType (mp : MasterPlaylist) (t : MediaType) : List MediaPlaylist :=
  mp.streams.filter fun s => decide (s.media_type = t)

/-- `MasterPlaylist::sort_streams` (playlist.rs 451–532). -/
def MasterPlaylist.sort_streams (self : MasterPlaylist)
    (prefer_audio_lang prefer_subs_lang : Option String) : MasterPlaylist :=
  let prefer_audio_lang := prefer_audio_lang.map rsToLower
  let prefer_subs_lang := prefer_subs_lang.map rsToLower
  let video_streams := streamsOfType self .Video
  let audio_streams := streamsOfType self .Audio
  let subtitle_streams := streamsOfType self .Subtitles
  let undefined_streams := streamsOfType self .Undefined
  { self with
    streams :=
      sortVideoGroup video_streams
        ++ sortAudioGroup prefer_audio_lang audio_streams
        ++ sortSubtitleGroup prefer_subs_lang subtitle_streams
        ++ undefined_streams }

/-! ### Quality resolver and selection protocol (playlist.rs 534–783) -/

/-- `crate::commands::Quality`. `commands.rs` is not under `src/`; the
variant list is exactly the set matched in `select_streams`
(playlist.rs 546–582). -/
inductive Quality where
  | Lowest
  | Highest
  | Resolution (w h : Nat)
  | Youtube144p
  | Youtube240p
  | Youtube360p
  | Youtube480p
  | Youtube720p
  | Youtube1080p
  | Youtube2k
  | Youtube1440p
  | Youtube4k
  | Youtube8k
deriving DecidableEq

/-- `MediaPlaylist::has_resolution` (playlist.rs 173–179). -/
def MediaPlaylist.has_resolution (self : MediaPlaylist) (w h : Nat) : Bool :=
  match self.resolution with
  | some (video_w, video_h) => decide (w = video_w ∧ h = video_h)
  | none => false

/-- The `default_video_stream_index` match (playlist.rs 546–582).
`Lowest` computes `count() - 1` in usize; on an empty group that
subtraction wraps (release semantics), hence the `% U64` form. -/
def default_video_stream_index (quality : Quality) (video_streams : List MediaPlaylist) :
    Option Nat :=
  match quality with
  | .Lowest => some ((video_streams.length + (U64 - 1)) % U64)
  | .Highest => some 0
  | .Resolution w h => video_streams.findIdx? fun x => x.has_resolution w h
  | .Youtube144p => video_streams.findIdx? fun x => x.has_resolution 256 144
  | .Youtube240p => video_streams.findIdx? fun x => x.has_resolution 426 240
  | .Youtube360p => video_streams.findIdx? fun x => x.has_resolution 640 360
  | .Youtube480p => video_streams.findIdx? fun x => x.has_resolution 854 480
  | .Youtube720p => video_streams.findIdx? fun x => x.has_resolution 1280 720
  | .Youtube1080p => video_streams.findIdx? fun x => x.has_resolution 1920 1080
  | .Youtube2k => video_streams.findIdx? fun x => x.has_resolution 2048 1080
  | .Youtube1440p => video_streams.findIdx? fun x => x.has_resolution 2560 1440
  | .Youtube4k => video_streams.findIdx? fun x => x.has_resolution 3840 2160
  | .Youtube8k => video_streams.findIdx? fun x => x.has_resolution 7680 4320

/-- One entry of `choices_with_default` (playlist.rs 599–636): a section
separator or a selectable stream with its default flag. The display string
does not influence selection, so it is not carried. -/
inductive Choice where
  | separator
  | choice (is_default : Bool)
deriving DecidableEq

/-- The `choices_with_default` list (playlist.rs 603–636): a separator
before each section, then the section's streams, flagged at the default
video index resp. index 0. -/
def choices_with_default (videos audios subs : List MediaPlaylist) (dvi : Nat) : List Choice :=
  [.separator] ++ videos.enum.map (fun p => .choice (p.1 == dvi))
    ++ [.separator] ++ audios.enum.map (fun p => .choice (p.1 == 0))
    ++ [.separator] ++ subs.enum.map (fun p => .choice (p.1 == 0))

/-- `choices_with_default_ranges` (playlist.rs 600–644), as half-open
`(start, stop)` pairs. `scripted` is `skip_prompts || raw_prompts`; the
running lengths are those of `choices_with_default` after each extend. -/
def choices_with_default_ranges (v a s : Nat) (scripted : Bool) :
    (Nat × Nat) × (Nat × Nat) × (Nat × Nat) :=
  let len0 := 1 + v
  let r0 := (1, len0)
  let len1 := len0 + 1 + a
  let r1 := if scripted then (r0.2, len1 - 1) else (r0.2 + 1, len1)
  let len2 := len1 + 1 + s
  let r2 := if scripted then (r1.2, len2 - 2) else (r1.2 + 1, len2)
  (r0, r1, r2)

/-- `Range::contains` on a half-open `(start, stop)` pair. -/
def inRange (r : Nat × Nat) (i : Nat) : Bool := decide (r.1 ≤ i ∧ i < r.2)

/-- The scripted print loop's collection of pre-selected indices
(playlist.rs 650–671): running 1-based index over non-separator entries,
collecting those flagged as defaults. -/
def collect_default_indices : List Choice → Nat → List Nat
  | [], _ => []
  | .separator :: rest, index => collect_default_indices rest index
  | .choice selected :: rest, index =>
    if selected then index :: collect_default_indices rest (index + 1)
    else collect_default_indices rest (index + 1)

/-- The scripted input parse (playlist.rs 689–693):
`input.split(',').filter_map(|x| x.trim().parse::<usize>().ok())`. -/
def parse_input (input : String) : List Nat :=
  (rsSplitComma input).filterMap fun x => rsParseUsize (rsTrim x)

/-- Model of `Vec::remove` (used at playlist.rs 704, 713, 722): the removed
element and the remainder, or `none` when the index is out of bounds (a
panic in Rust). -/
def vecRemove : List α → Nat → Option (α × List α)
  | [], _ => none
  | x :: xs, 0 => some (x, xs)
  | x :: xs, n + 1 =>
    match vecRemove xs n with
    | some (y, ys) => some (y, x :: ys)
    | none => none

/-- The mutable locals of the selection loop (playlist.rs 696–700). -/
structure SelectState where
  videos : List MediaPlaylist
  audios : List MediaPlaylist
  subs : List MediaPlaylist
  video_streams_offset : Nat
  audio_streams_offset : Nat
  subtitle_streams_offset : Nat
  selected_streams : List MediaPlaylist
  selected_subtitle_streams : List MediaPlaylist
deriving DecidableEq

/-- One iteration of the selection loop (the body of the `for` at
playlist.rs 702–731): the index is matched against the three ranges; a hit
removes the stream at `i - offset` from that section's pending list (a
`usize` underflow or out-of-bounds removal is a panic, modelled `none`) and
bumps that section's offset; a miss leaves the state unchanged. -/
def select_step (ranges : (Nat × Nat) × (Nat × Nat) × (Nat × Nat)) (i : Nat)
    (st : SelectState) : Option SelectState :=
  if inRange ranges.1 i then
    if i < st.video_streams_offset then none
    else
      match vecRemove st.videos (i - st.video_streams_offset) with
      | none => none
      | some (stream, videos) =>
        some { st with
          videos
          video_streams_offset := st.video_streams_offset + 1
          selected_streams := st.selected_streams ++ [stream] }
  else if inRange ranges.2.1 i then
    if i < st.audio_streams_offset then none
    else
      match vecRemove st.audios (i - st.audio_streams_offset) with
      | none => none
      | some (stream, audios) =>
        some { st with
          audios
          audio_streams_offset := st.audio_streams_offset + 1
          selected_streams := st.selected_streams ++ [stream] }
  else if inRange ranges.2.2 i then
    if i < st.subtitle_streams_offset then none
    else
      match vecRemove st.subs (i - st.subtitle_streams_offset) with
      | none => none
      | some (stream, subs) =>
        some { st with
          subs
          subtitle_streams_offset := st.subtitle_streams_offset + 1
          selected_subtitle_streams := st.selected_subtitle_streams ++ [stream] }
  else some st

/-- The selection loop (playlist.rs 702–731): `select_step` folded over the
selected indices, returning the two selection sequences. -/
def select_loop (ranges : (Nat × Nat) × (Nat × Nat) × (Nat × Nat)) :
    List Nat → SelectState → Option (List MediaPlaylist × List MediaPlaylist)
  | [], st => some (st.selected_streams, st.selected_subtitle_streams)
  | i :: rest, st =>
    match select_step ranges i st with
    | some st' => select_loop ranges rest st'
    | none => none

/-- Errors of `select_streams`: the `bail!` at playlist.rs 781 (no stream
of the requested quality), a loop panic, or the interactive branch
(playlist.rs 734–777), which delegates to the `requestty` full-screen UI
and is outside this embedding. -/
inductive SelectError where
  | quality_unavailable (quality : Quality)
  | interactive_branch
  | panicked
deriving DecidableEq

/-- The initial selection-loop state in scripted mode (playlist.rs
696–700): offsets 1, 1+|videos|, 1+|videos|+|audios|. -/
def initState (videos audios subs : List MediaPlaylist) : SelectState :=
  { videos, audios, subs
    video_streams_offset := 1
    audio_streams_offset := 1 + videos.length
    subtitle_streams_offset := 1 + videos.length + audios.length
    selected_streams := []
    selected_subtitle_streams := [] }

/-- `MasterPlaylist::select_streams` (playlist.rs 534–783), scripted paths
(`skip_prompts || raw_prompts`). `input_line` is the line read from stdin
in raw mode (playlist.rs 681–682). The interactive `requestty` branch is
represented by the `interactive_branch` error. -/
def MasterPlaylist.select_streams (self : MasterPlaylist) (quality : Quality)
    (skip_prompts raw_prompts : Bool) (input_line : String) :
    Except SelectError (List MediaPlaylist × List MediaPlaylist) :=
  let video_streams := streamsOfType self .Video
  match default_video_stream_index quality video_streams with
  | none => .error (.quality_unavailable quality)
  | some default_index =>
    let audio_streams := streamsOfType self .Audio
    let subtitle_streams := streamsOfType self .Subtitles
    if skip_prompts || raw_prompts then
      let choices := choices_with_default video_streams audio_streams subtitle_streams default_index
      let ranges :=
        choices_with_default_ranges video_streams.length audio_streams.length
          subtitle_streams.length true
      let defaults := collect_default_indices choices 1
      let input := rsTrim input_line
      let selected_choices_index :=
        if raw_prompts && !skip_prompts && !(input == "") then parse_input input
        else defaults
      match select_loop ranges selected_choices_index
          (initState video_streams audio_streams subtitle_streams) with
      | some r => .ok r
      | none => .error .panicked
    else .error .interactive_branch

/-! ### Spec-side definitions and concrete fixtures -/

/-- Modelled from the spec (§8): the claimed reading of the language
factor, with "first two characters" taken literally — the first two chars
must exist in both tags and be equal case-insensitively. Stated only to
exhibit where the code diverges from it. -/
def claimLangFactor (language prefer : Option String) : Nat :=
  match language, prefer with
  | some l, some p =>
    if rsToLower l = rsToLower p then 2
    else if 2 ≤ l.data.length ∧ 2 ≤ p.data.length
        ∧ (rsToLower l).data.take 2 = (rsToLower p).data.take 2 then 1
    else 0
  | _, _ => 0

/-- The claimed video ordering key, the exact resolution area (no u64
wrap); agrees with `videoPixels` whenever `w * h < 2^64`. -/
def resArea (s : MediaPlaylist) : Nat :=
  match s.resolution with
  | some (w, h) => w * h
  | none => 0

/-- A rendition with every optional field absent. -/
def emptyStream : MediaPlaylist :=
  { bandwidth := none, channels := none, codecs := none, extension := none,
    frame_rate := none, i_frame := false, language := none, live := false,
    media_type := .Undefined, playlist_type := .Hls, resolution := none,
    segments := [], uri := "" }

/-- First video rendition of the scripted-mode scenario. -/
def v0 : MediaPlaylist := { emptyStream with media_type := .Video, uri := "v0" }

/-- Second video rendition of the scripted-mode scenario. -/
def v1 : MediaPlaylist := { emptyStream with media_type := .Video, uri := "v1" }

/-- First audio rendition of the scripted-mode scenario. -/
def a0 : MediaPlaylist := { emptyStream with media_type := .Audio, uri := "a0" }

/-- Second audio rendition of the scripted-mode scenario. -/
def a1 : MediaPlaylist := { emptyStream with media_type := .Audio, uri := "a1" }

/-- The subtitle rendition of the scripted-mode scenario. -/
def s0 : MediaPlaylist := { emptyStream with media_type := .Subtitles, uri := "s0" }

/-- The ranked 2-video / 2-audio / 1-subtitle manifest of the
scripted-mode scenario. -/
def mpC5 : MasterPlaylist :=
  { playlist_type := .Hls, uri := "m", streams := [v0, v1, a0, a1, s0] }

/-- A manifest whose video group is empty. -/
def mpNoVideo : MasterPlaylist :=
  { playlist_type := .Hls, uri := "m", streams := [a0, s0] }

/-- A key with a relative URI, owned by `segAbs`. -/
def keyRel : Key :=
  { default_kid := none, iv := none, key_format := none, method := .Aes128, uri := "k.key" }

/-- A map (initialization segment) with a relative URI, owned by `segAbs`. -/
def mapRel : Map := { uri := "init.mp4", byte_range := none }

/-- A segment whose own URI is absolute while its map and key URIs are
relative. -/
def segAbs : Segment :=
  { byte_range := none, duration := 0, key := some keyRel, map := some mapRel,
    uri := "http://a/seg.ts" }

/-- A segment with a zero-length contiguous byte range. -/
def segZero : Segment :=
  { byte_range := some ⟨0, none⟩, duration := 0, key := none, map := none, uri := "s" }

/-- A segment with a two-byte contiguous byte range. -/
def segTwo : Segment :=
  { byte_range := some ⟨2, none⟩, duration := 0, key := none, map := none, uri := "s" }

/-- A segment with a fifty-byte contiguous byte range. -/
def segFifty : Segment :=
  { byte_range := some ⟨50, none⟩, duration := 0, key := none, map := none, uri := "s" }

/-- A segment with an absolute-offset byte range (length 10, offset 5). -/
def segOfs : Segment :=
  { byte_range := some ⟨10, some 5⟩, duration := 0, key := none, map := none, uri := "s" }

/-- A segment whose URI ends in `.m4s`. -/
def sgM4s : Segment :=
  { byte_range := none, duration := 0, key := none, map := none, uri := "a.m4s" }

/-- A segment whose URI ends in `.mp4`. -/
def sgMp4 : Segment :=
  { byte_range := none, duration := 0, key := none, map := none, uri := "b.mp4" }

/-- A Dash rendition whose second (not first) segment URI ends in `.mp4`. -/
def mpxDash : MediaPlaylist :=
  { emptyStream with playlist_type := .Dash, segments := [sgM4s, sgMp4] }

/-- A Dash rendition whose first segment URI ends in `.mp4`. -/
def mpyDash : MediaPlaylist :=
  { emptyStream with playlist_type := .Dash, segments := [sgMp4, sgM4s] }

/-! ## Supporting lemmas -/

/-- In the contiguous (offset absent or zero) branch, in-range inputs give
`(prev, prev + length - 1)`. -/
theorem byteRangeBounds_zero (br : ByteRange) (prev : Nat)
    (h : br.offset = none ∨ br.offset = some 0)
    (h1 : 1 ≤ prev + br.length) (h2 : prev + br.length ≤ U64) :
    byteRangeBounds br prev = (prev, prev + br.length - 1) := by
  rcases h with h | h <;>
    · simp only [byteRangeBounds, h, Option.getD_none, Option.getD_some, if_pos rfl]
      refine Prod.ext rfl ?_
      show (prev + br.length + (U64 - 1)) % U64 = prev + br.length - 1
      unfold U64 at *
      omega

/-- In the absolute (nonzero offset) branch, the bounds ignore `prev`. -/
theorem byteRangeBounds_nonzero (br : ByteRange) (prev o : Nat)
    (h : br.offset = some o) (ho : o ≠ 0) :
    byteRangeBounds br prev = (br.length, (br.length + o + (U64 - 1)) % U64) := by
  simp [byteRangeBounds, h, ho]

/-- The tags of an enumerated list increase strictly. -/
theorem enum_pairwise_fst_lt {α : Type} (l : List α) :
    l.enum.Pairwise (fun p q => p.1 < q.1) := by
  rw [List.pairwise_iff_getElem]
  intro i j hi hj hij
  simpa [List.getElem_enum] using hij

/-- An enumerated list has no duplicates (its tags are distinct). -/
theorem enum_nodup {α : Type} (l : List α) : l.enum.Nodup :=
  (enum_pairwise_fst_lt l).imp fun hlt heq => by
    rw [heq] at hlt
    exact Nat.lt_irrefl _ hlt

/-- A pairwise relation on a list lifts to its enumeration. -/
theorem pairwise_enum_snd {α : Type} {q : α → α → Prop} {l : List α} (hq : l.Pairwise q) :
    l.enum.Pairwise (fun p p' => q p.2 p'.2) := by
  rw [List.pairwise_iff_getElem] at hq ⊢
  intro i j hi hj hij
  simp only [List.getElem_enum]
  exact hq i j (by simpa using hi) (by simpa using hj) hij

/-- The radix step of a stable sort: sorting a `q`-pairwise list with a
total transitive `le` yields a list pairwise sorted by `le` in which
`le`-tied pairs are still `q`-related — ties keep their input order. -/
theorem radix_pairwise {α : Type} (le : α → α → Bool)
    (htrans : ∀ a b c, le a b → le b c → le a c)
    (htotal : ∀ a b, le a b || le b a)
    (q : α → α → Prop) (l : List α) (hq : l.Pairwise q) :
    (l.mergeSort le).Pairwise (fun a b => le a b = true ∧ (le b a = true → q a b)) := by
  have hbridge : (List.mergeSort l.enum (List.enumLE le)).map (fun x => x.2)
      = l.mergeSort le := List.mergeSort_enum
  rw [← hbridge, List.pairwise_map]
  have hsorted : (List.mergeSort l.enum (List.enumLE le)).Pairwise
      (fun p p' => List.enumLE le p p' = true) :=
    List.sorted_mergeSort (List.enumLE_trans htrans) (List.enumLE_total htotal) _
  have hnodup : (List.mergeSort l.enum (List.enumLE le)).Nodup :=
    ((List.mergeSort_perm l.enum (List.enumLE le)).symm).nodup (enum_nodup l)
  refine List.Pairwise.imp_of_mem ?_ (hsorted.and hnodup)
  intro p p' hp hp' hr
  obtain ⟨hr, hne⟩ := hr
  have h1 : le p.2 p'.2 = true := by
    by_contra h
    simp [List.enumLE, h] at hr
  refine ⟨h1, fun h2 => ?_⟩
  have hle12 : p.1 ≤ p'.1 := by
    simpa [List.enumLE, h1, h2] using hr
  rw [List.mem_mergeSort] at hp hp'
  have hx := List.mem_enum_iff_getElem?.mp hp
  have hx' := List.mem_enum_iff_getElem?.mp hp'
  rw [List.getElem?_eq_some_iff] at hx hx'
  obtain ⟨hlen, hval⟩ := hx
  obtain ⟨hlen', hval'⟩ := hx'
  have hlt : p.1 < p'.1 := by
    rcases Nat.lt_or_ge p.1 p'.1 with h | h
    · exact h
    · have : p.1 = p'.1 := Nat.le_antisymm hle12 h
      exact absurd (Prod.ext this (by rw [← hval, ← hval']; congr 1)) hne
  have := List.pairwise_iff_getElem.mp hq p.1 p'.1 hlen hlen' hlt
  rwa [hval, hval'] at this

/-- A stable sort whose comparator holds between any two `p`-elements does
not move the `p`-elements: filtering by `p` recovers the input's
`p`-sublist in its original order. -/
theorem mergeSort_filter_tie {α : Type} (le : α → α → Bool)
    (htrans : ∀ a b c, le a b → le b c → le a c)
    (htotal : ∀ a b, le a b || le b a)
    (p : α → Bool) (hp : ∀ a b, p a → p b → le a b) (l : List α) :
    (l.mergeSort le).filter p = l.filter p := by
  have hmemp : ∀ a ∈ l.filter p, p a = true := fun a ha => (List.mem_filter.mp ha).2
  have hpair : (l.filter p).Pairwise (fun a b => le a b = true) :=
    List.pairwise_of_forall_mem_list fun a ha b hb => hp a b (hmemp a ha) (hmemp b hb)
  have hstable : List.Sublist (l.filter p) (l.mergeSort le) :=
    List.sublist_mergeSort htrans htotal hpair (List.filter_sublist l)
  have hself : (l.filter p).filter p = l.filter p :=
    List.filter_eq_self.mpr hmemp
  have hsub2 : List.Sublist (l.filter p) ((l.mergeSort le).filter p) := by
    have h := hstable.filter p
    rwa [hself] at h
  have hlen : ((l.mergeSort le).filter p).length = (l.filter p).length :=
    ((List.mergeSort_perm l le).filter p).length_eq
  exact (hsub2.eq_of_length hlen.symm).symm

/-- Three stable passes (least-significant key first) applied to a list
already sorted by the corresponding three-key lexicographic order return
it unchanged. -/
theorem threePass_idem {α : Type} (le1 le2 le3 : α → α → Bool)
    (ht1 : ∀ a b c, le1 a b → le1 b c → le1 a c) (hto1 : ∀ a b, le1 a b || le1 b a)
    (ht2 : ∀ a b c, le2 a b → le2 b c → le2 a c) (hto2 : ∀ a b, le2 a b || le2 b a)
    (ht3 : ∀ a b c, le3 a b → le3 b c → le3 a c) (hto3 : ∀ a b, le3 a b || le3 b a)
    (l : List α)
    (hq : l.Pairwise (fun a b => le1 a b = true ∧ (le1 b a = true →
        le2 a b = true ∧ (le2 b a = true → le3 a b = true)))) :
    ((l.mergeSort le3).mergeSort le2).mergeSort le1 = l := by
  have e3 : (List.mergeSort l.enum (List.enumLE le3)).map (fun x => x.2)
      = l.mergeSort le3 := List.mergeSort_enum
  have e2 : ((List.mergeSort l.enum (List.enumLE le3)).mergeSort
        (fun p p' => le2 p.2 p'.2)).map (fun x => x.2)
      = (l.mergeSort le3).mergeSort le2 := by
    have h : ((List.mergeSort l.enum (List.enumLE le3)).mergeSort
          (fun p p' => le2 p.2 p'.2)).map (fun x => x.2)
        = ((List.mergeSort l.enum (List.enumLE le3)).map (fun x => x.2)).mergeSort le2 :=
      List.map_mergeSort (fun a _ b _ => rfl)
    rw [h, e3]
  have e1 : (((List.mergeSort l.enum (List.enumLE le3)).mergeSort
        (fun p p' => le2 p.2 p'.2)).mergeSort (fun p p' => le1 p.2 p'.2)).map (fun x => x.2)
      = ((l.mergeSort le3).mergeSort le2).mergeSort le1 := by
    have h : (((List.mergeSort l.enum (List.enumLE le3)).mergeSort
          (fun p p' => le2 p.2 p'.2)).mergeSort (fun p p' => le1 p.2 p'.2)).map (fun x => x.2)
        = (((List.mergeSort l.enum (List.enumLE le3)).mergeSort
            (fun p p' => le2 p.2 p'.2)).map (fun x => x.2)).mergeSort le1 :=
      List.map_mergeSort (fun a _ b _ => rfl)
    rw [h, e2]
  have etsnd : l.enum.map (fun x => x.2) = l := List.enumFrom_map_snd 0 l
  suffices hRt : ((List.mergeSort l.enum (List.enumLE le3)).mergeSort
      (fun p p' => le2 p.2 p'.2)).mergeSort (fun p p' => le1 p.2 p'.2) = l.enum by
    rw [← e1, hRt, etsnd]
  have hperm : List.Perm (((List.mergeSort l.enum (List.enumLE le3)).mergeSort
      (fun p p' => le2 p.2 p'.2)).mergeSort (fun p p' => le1 p.2 p'.2)) l.enum :=
    ((List.mergeSort_perm _ _).trans (List.mergeSort_perm _ _)).trans (List.mergeSort_perm _ _)
  have htS : l.enum.Pairwise (fun p p' =>
      le1 p.2 p'.2 = true ∧ (le1 p'.2 p.2 = true → le2 p.2 p'.2 = true
        ∧ (le2 p'.2 p.2 = true → le3 p.2 p'.2 = true ∧ (le3 p'.2 p.2 = true → p.1 < p'.1)))) := by
    refine ((pairwise_enum_snd hq).and (enum_pairwise_fst_lt l)).imp ?_
    intro a b hab
    exact ⟨hab.1.1, fun hx => ⟨(hab.1.2 hx).1, fun hy => ⟨(hab.1.2 hx).2 hy, fun _ => hab.2⟩⟩⟩
  have hM3sorted : (List.mergeSort l.enum (List.enumLE le3)).Pairwise
      (fun p p' => List.enumLE le3 p p' = true) :=
    List.sorted_mergeSort (List.enumLE_trans ht3) (List.enumLE_total hto3) _
  have h2' := radix_pairwise (fun p p' : Nat × α => le2 p.2 p'.2)
    (fun a b c h1 h2 => ht2 _ _ _ h1 h2) (fun a b => hto2 a.2 b.2)
    (fun p p' => List.enumLE le3 p p' = true) _ hM3sorted
  have h1' := radix_pairwise (fun p p' : Nat × α => le1 p.2 p'.2)
    (fun a b c h1 h2 => ht1 _ _ _ h1 h2) (fun a b => hto1 a.2 b.2)
    _ _ h2'
  have hnd : (((List.mergeSort l.enum (List.enumLE le3)).mergeSort
      (fun p p' => le2 p.2 p'.2)).mergeSort (fun p p' => le1 p.2 p'.2)).Nodup :=
    hperm.symm.nodup (enum_nodup l)
  have hmem : ∀ p ∈ ((List.mergeSort l.enum (List.enumLE le3)).mergeSort
      (fun p p' => le2 p.2 p'.2)).mergeSort (fun p p' => le1 p.2 p'.2), p ∈ l.enum := by
    intro p hp
    rw [List.mem_mergeSort, List.mem_mergeSort, List.mem_mergeSort] at hp
    exact hp
  have hRS : (((List.mergeSort l.enum (List.enumLE le3)).mergeSort
      (fun p p' => le2 p.2 p'.2)).mergeSort (fun p p' => le1 p.2 p'.2)).Pairwise
      (fun p p' => le1 p.2 p'.2 = true ∧ (le1 p'.2 p.2 = true → le2 p.2 p'.2 = true
        ∧ (le2 p'.2 p.2 = true → le3 p.2 p'.2 = true ∧ (le3 p'.2 p.2 = true → p.1 < p'.1)))) := by
    refine List.Pairwise.imp_of_mem ?_ (h1'.and hnd)
    intro p p' hp hp' hr
    obtain ⟨hr, hne⟩ := hr
    refine ⟨hr.1, fun ha => ?_⟩
    have h2'' := hr.2 ha
    refine ⟨h2''.1, fun hb => ?_⟩
    have h3'' := h2''.2 hb
    have hle3 : le3 p.2 p'.2 = true := by
      by_contra h
      simp [List.enumLE, h] at h3''
    refine ⟨hle3, fun hc => ?_⟩
    have hle : p.1 ≤ p'.1 := by
      simpa [List.enumLE, hle3, hc] using h3''
    have hx := List.mem_enum_iff_getElem?.mp (hmem p hp)
    have hx' := List.mem_enum_iff_getElem?.mp (hmem p' hp')
    rcases Nat.lt_or_ge p.1 p'.1 with h | h
    · exact h
    · have heq1 : p.1 = p'.1 := Nat.le_antisymm hle h
      rw [heq1] at hx
      rw [hx] at hx'
      exact absurd (Prod.ext heq1 (Option.some.inj hx')) hne
  haveI : IsAntisymm (Nat × α) (fun p p' =>
      le1 p.2 p'.2 = true ∧ (le1 p'.2 p.2 = true → le2 p.2 p'.2 = true
        ∧ (le2 p'.2 p.2 = true → le3 p.2 p'.2 = true ∧ (le3 p'.2 p.2 = true → p.1 < p'.1)))) := by
    constructor
    intro a b hab hba
    have h2ab := hab.2 hba.1
    have h2ba := hba.2 hab.1
    have h3ab := h2ab.2 h2ba.1
    have h3ba := h2ba.2 h2ab.1
    have h4ab := h3ab.2 h3ba.1
    have h4ba := h3ba.2 h3ab.1
    exact absurd h4ab (Nat.lt_asymm h4ba)
  exact List.eq_of_perm_of_sorted hperm hRS htS

/-- Two stable passes applied to a list already sorted by the two-key
lexicographic order return it unchanged. -/
theorem twoPass_idem {α : Type} (le1 le2 : α → α → Bool)
    (ht1 : ∀ a b c, le1 a b → le1 b c → le1 a c) (hto1 : ∀ a b, le1 a b || le1 b a)
    (ht2 : ∀ a b c, le2 a b → le2 b c → le2 a c) (hto2 : ∀ a b, le2 a b || le2 b a)
    (l : List α)
    (hq : l.Pairwise (fun a b => le1 a b = true ∧ (le1 b a = true → le2 a b = true))) :
    (l.mergeSort le2).mergeSort le1 = l := by
  have h := threePass_idem le1 le2 (fun _ _ => true)
    ht1 hto1 ht2 hto2 (fun _ _ _ _ _ => rfl) (fun _ _ => rfl) l
    (hq.imp fun hab => ⟨hab.1, fun hx => ⟨hab.2 hx, fun _ => rfl⟩⟩)
  rwa [List.mergeSort_of_sorted (List.pairwise_of_forall_mem_list fun _ _ _ _ => rfl)] at h

/-- `bwDesc` is transitive. -/
theorem bwDesc_trans : ∀ a b c, bwDesc a b → bwDesc b c → bwDesc a c := by
  intro a b c h1 h2
  simp only [bwDesc, decide_eq_true_eq] at *
  omega

/-- `bwDesc` is total. -/
theorem bwDesc_total : ∀ a b, bwDesc a b || bwDesc b a := by
  intro a b
  simp only [bwDesc, Bool.or_eq_true, decide_eq_true_eq]
  omega

/-- `pxDesc` is transitive. -/
theorem pxDesc_trans : ∀ a b c, pxDesc a b → pxDesc b c → pxDesc a c := by
  intro a b c h1 h2
  simp only [pxDesc, decide_eq_true_eq] at *
  omega

/-- `pxDesc` is total. -/
theorem pxDesc_total : ∀ a b, pxDesc a b || pxDesc b a := by
  intro a b
  simp only [pxDesc, Bool.or_eq_true, decide_eq_true_eq]
  omega

/-- `chDesc` is transitive. -/
theorem chDesc_trans : ∀ a b c, chDesc a b → chDesc b c → chDesc a c := by
  intro a b c h1 h2
  simp only [chDesc, decide_eq_true_eq] at *
  exact le_trans h2 h1

/-- `chDesc` is total. -/
theorem chDesc_total : ∀ a b, chDesc a b || chDesc b a := by
  intro a b
  simp only [chDesc, Bool.or_eq_true, decide_eq_true_eq]
  exact le_total _ _

/-- `lfDesc` is transitive. -/
theorem lfDesc_trans (pref : Option String) :
    ∀ a b c, lfDesc pref a b → lfDesc pref b c → lfDesc pref a c := by
  intro a b c h1 h2
  simp only [lfDesc, decide_eq_true_eq] at *
  omega

/-- `lfDesc` is total. -/
theorem lfDesc_total (pref : Option String) :
    ∀ a b, lfDesc pref a b || lfDesc pref b a := by
  intro a b
  simp only [lfDesc, Bool.or_eq_true, decide_eq_true_eq]
  omega

/-- Membership is preserved by the video two-pass sort. -/
theorem mem_sortVideoGroup {x : MediaPlaylist} {l : List MediaPlaylist} :
    x ∈ sortVideoGroup l ↔ x ∈ l := by
  simp [sortVideoGroup, List.mem_mergeSort]

/-- Membership is preserved by the audio three-pass sort. -/
theorem mem_sortAudioGroup {pref : Option String} {x : MediaPlaylist}
    {l : List MediaPlaylist} : x ∈ sortAudioGroup pref l ↔ x ∈ l := by
  simp [sortAudioGroup, List.mem_mergeSort]

/-- Membership is preserved by the subtitle sort. -/
theorem mem_sortSubtitleGroup {pref : Option String} {x : MediaPlaylist}
    {l : List MediaPlaylist} : x ∈ sortSubtitleGroup pref l ↔ x ∈ l := by
  simp [sortSubtitleGroup, List.mem_mergeSort]

/-- Every member of `streamsOfType mp t` has media type `t`. -/
theorem mem_streamsOfType {mp : MasterPlaylist} {t : MediaType} {x : MediaPlaylist}
    (hx : x ∈ streamsOfType mp t) : x.media_type = t := by
  have := (List.mem_filter.mp hx).2
  simpa using this

/-- When the resolution area is below `2^64`, the u64 product does not
wrap. -/
theorem videoPixels_eq_resArea {x : MediaPlaylist} (hx : resArea x < U64) :
    videoPixels x = resArea x := by
  cases hres : x.resolution with
  | none => simp [videoPixels, resArea, hres]
  | some p =>
    cases p with
    | mk w h =>
      simp only [videoPixels, resArea, hres]
      exact Nat.mod_eq_of_lt (by simpa [resArea, hres] using hx)

/-- An index hitting no section range leaves the selection state alone. -/
theorem select_step_skip (ranges : (Nat × Nat) × (Nat × Nat) × (Nat × Nat)) (i : Nat)
    (st : SelectState) (h1 : inRange ranges.1 i = false)
    (h2 : inRange ranges.2.1 i = false) (h3 : inRange ranges.2.2 i = false) :
    select_step ranges i st = some st := by
  simp [select_step, h1, h2, h3]

/-! ## Claim theorems -/

/-- C1, counterexample: with an empty video group and policy `Highest`,
`select_streams` does not fail with `QualityUnavailable` — it returns a
full (partial-free but non-error) selection. -/
theorem c1_counterexample :
    streamsOfType mpNoVideo .Video = []
  ∧ mpNoVideo.select_streams .Highest true false "" = .ok ([a0], [s0]) := by decide

/-- C1 (amended): `select_streams` fails with `QualityUnavailable` exactly
when the resolved default video index is `none`; `Highest` resolves to
index 0 unconditionally (even on an empty video group); `Lowest` resolves
to the last index `count - 1` on a non-empty group (on an empty group the
usize subtraction wraps); `Resolution`/presets resolve to the first exact
match, and when no video rendition matches they fail with
`QualityUnavailable` before any UI. -/
theorem c1_quality_resolution (mp : MasterPlaylist) (q : Quality)
    (sp rp : Bool) (input : String) :
    (mp.select_streams q sp rp input = .error (.quality_unavailable q)
      ↔ default_video_stream_index q (streamsOfType mp .Video) = none)
  ∧ default_video_stream_index .Highest (streamsOfType mp .Video) = some 0
  ∧ ((streamsOfType mp .Video).length ≠ 0 → (streamsOfType mp .Video).length ≤ U64 →
      default_video_stream_index .Lowest (streamsOfType mp .Video)
        = some ((streamsOfType mp .Video).length - 1))
  ∧ (∀ w h, (∀ x ∈ streamsOfType mp .Video, x.has_resolution w h = false) →
      mp.select_streams (.Resolution w h) sp rp input
        = .error (.quality_unavailable (.Resolution w h))) := by
  refine ⟨?_, rfl, ?_, ?_⟩
  · cases hdvi : default_video_stream_index q (streamsOfType mp .Video) with
    | none => simp [MasterPlaylist.select_streams, hdvi]
    | some d =>
      simp only [MasterPlaylist.select_streams, hdvi]
      constructor
      · intro h
        split at h
        · split at h <;> simp_all
        · simp_all
      · intro h
        cases h
  · intro h1 h2
    simp only [default_video_stream_index, Option.some.injEq]
    unfold U64 at *
    omega
  · intro w h hall
    have hdvi : default_video_stream_index (.Resolution w h) (streamsOfType mp .Video) = none := by
      simpa [default_video_stream_index, List.findIdx?_eq_none_iff] using hall
    simp [MasterPlaylist.select_streams, hdvi]

/-- C1, witness for the amended theorem's hypotheses at a concrete ranked
manifest with two video renditions. -/
theorem c1_witness :
    (streamsOfType mpC5 .Video).length ≠ 0
  ∧ default_video_stream_index .Lowest (streamsOfType mpC5 .Video)
      = some ((streamsOfType mpC5 .Video).length - 1)
  ∧ mpC5.select_streams (.Resolution 9 9) false true ""
      = .error (.quality_unavailable (.Resolution 9 9)) :=
  ⟨by decide,
   (c1_quality_resolution mpC5 .Lowest false true "").2.2.1 (by decide) (by decide),
   (c1_quality_resolution mpC5 (.Resolution 9 9) false true "").2.2.2 9 9 (by decide)⟩

/-- C2, counterexample: with `previous_byterange_end = 0` and `length = 0`
(offset absent), the u64 subtraction wraps: the returned cursor is
`2^64 - 1`, not `start + length - 1` (the cursor plus one is not
`start + length`). -/
theorem c2_counterexample :
    segZero.seg_range 0 = some ("bytes=0-18446744073709551615", U64 - 1)
  ∧ (U64 - 1) + 1 ≠ 0 + 0 := by decide

/-- C2 (amended): `seg_range`/`map_range` return `none` exactly when no
byte range is declared; with offset absent or zero and
`1 ≤ prev + length ≤ 2^64` they return `bytes=<start>-<end>` with
`start = prev` and cursor `start + length - 1` (outside those bounds the
u64 arithmetic wraps); with nonzero offset the result is independent of
`prev` unconditionally, and equals `start = length`,
`end = length + offset - 1` whenever `length + offset ≤ 2^64`. -/
theorem c2_byte_range (seg : Segment) (br : ByteRange) (m : Map) (prev prev' : Nat) :
    (seg.byte_range = none → seg.seg_range prev = none)
  ∧ (seg.map = none → seg.map_range prev = none)
  ∧ (seg.map = some m → m.byte_range = none → seg.map_range prev = none)
  ∧ (seg.byte_range = some br → br.offset = none ∨ br.offset = some 0 →
      1 ≤ prev + br.length → prev + br.length ≤ U64 →
      seg.seg_range prev
        = some (bytesHeader prev (prev + br.length - 1), prev + br.length - 1))
  ∧ (seg.map = some m → m.byte_range = some br → br.offset = none ∨ br.offset = some 0 →
      1 ≤ prev + br.length → prev + br.length ≤ U64 →
      seg.map_range prev
        = some (bytesHeader prev (prev + br.length - 1), prev + br.length - 1))
  ∧ (∀ o, seg.byte_range = some br → br.offset = some o → o ≠ 0 →
      seg.seg_range prev = seg.seg_range prev')
  ∧ (∀ o, seg.map = some m → m.byte_range = some br → br.offset = some o → o ≠ 0 →
      seg.map_range prev = seg.map_range prev')
  ∧ (∀ o, seg.byte_range = some br → br.offset = some o → o ≠ 0 → br.length + o ≤ U64 →
      seg.seg_range prev
        = some (bytesHeader br.length (br.length + o - 1), br.length + o - 1)) := by
  refine ⟨?_, ?_, ?_, ?_, ?_, ?_, ?_, ?_⟩
  · intro h; simp [Segment.seg_range, h]
  · intro h; simp [Segment.map_range, h]
  · intro hm h; simp [Segment.map_range, hm, h]
  · intro hbr ho h1 h2
    simp [Segment.seg_range, hbr, byteRangeBounds_zero br prev ho h1 h2]
  · intro hm hbr ho h1 h2
    simp [Segment.map_range, hm, hbr, byteRangeBounds_zero br prev ho h1 h2]
  · intro o hbr ho hno
    simp [Segment.seg_range, hbr, byteRangeBounds_nonzero br prev o ho hno,
      byteRangeBounds_nonzero br prev' o ho hno]
  · intro o hm hbr ho hno
    simp [Segment.map_range, hm, hbr, byteRangeBounds_nonzero br prev o ho hno,
      byteRangeBounds_nonzero br prev' o ho hno]
  · intro o hbr ho hno hle
    rw [Segment.seg_range, hbr]
    simp only [byteRangeBounds_nonzero br prev o ho hno]
    have : (br.length + o + (U64 - 1)) % U64 = br.length + o - 1 := by
      unfold U64 at *
      omega
    rw [this]

/-- C2, witness: a contiguous range advances the cursor from 100 by 50
bytes, and an absolute-offset range ignores the cursor argument. -/
theorem c2_witness :
    segFifty.seg_range 100 = some (bytesHeader 100 149, 149)
  ∧ segOfs.seg_range 7 = segOfs.seg_range 123 :=
  ⟨by
    have h := (c2_byte_range segFifty ⟨50, none⟩ ⟨"", none⟩ 100 0).2.2.2.1 rfl
      (Or.inl rfl) (by decide) (by decide)
    simpa using h,
   (c2_byte_range segOfs ⟨10, some 5⟩ ⟨"", none⟩ 7 123).2.2.2.2.2.1 5 rfl rfl (by decide)⟩

/-- C3: the code keys the absolute/relative rule on the segment's own URI,
then parses the map's (key's) URI: a segment with an absolute URI but a
relative map/key URI fails with `InvalidUrl`, where the claim prescribes
joining the map (key) URI with the base. -/
theorem c3_map_key_url_eval :
    segAbs.map_url "http://a/" = .error .invalid_url
  ∧ segAbs.key_url "http://a/" = .error .invalid_url
  ∧ segAbs.map = some mapRel ∧ segAbs.key = some keyRel
  ∧ isAbsUrl mapRel.uri = false ∧ isAbsUrl keyRel.uri = false
  ∧ joinUrl "http://a/" mapRel.uri = "http://a/init.mp4"
  ∧ joinUrl "http://a/" keyRel.uri = "http://a/k.key" := by decide

/-- C5, counterexample: against the rendered 2-video/2-audio/1-subtitle
list, scripted input `1,3` selects the first video and the FIRST AUDIO
rendition — index 3 is an audio index, and the second video is not
selected. -/
theorem c5_counterexample :
    mpC5.select_streams .Highest false true "1,3" = .ok ([v0, a0], [])
  ∧ a0.media_type = .Audio
  ∧ v1 ∉ [v0, a0] := by decide

/-- C5 (amended): with separators not consuming an index, the videos
occupy indices 1–2, audio 3–4 and the subtitle 5; input `1,3` maps 1 to
the first video and 3 to the first audio rendition (`1,2` is how both
videos are addressed). -/
theorem c5_scripted_mapping :
    streamsOfType mpC5 .Video = [v0, v1]
  ∧ streamsOfType mpC5 .Audio = [a0, a1]
  ∧ streamsOfType mpC5 .Subtitles = [s0]
  ∧ choices_with_default_ranges 2 2 1 true = ((1, 3), (3, 5), (5, 6))
  ∧ mpC5.select_streams .Highest false true "1,3" = .ok ([v0, a0], [])
  ∧ mpC5.select_streams .Highest false true "1,2" = .ok ([v0, v1], []) := by decide

/-- C6, counterexample: for single-character tags, Rust `get(0..2)` is
`None` on both sides and `None == None` holds, so two entirely different
tags score factor 1 where the claim assigns 0. -/
theorem c6_counterexample :
    language_factor (some "a") (some "z") = 1
  ∧ claimLangFactor (some "a") (some "z") = 0 := by decide

/-- C6 (amended): factor 2 iff the tags are equal case-insensitively;
factor 1 iff they are not equal but their `get(0..2)` byte slices are
(slices being `None` for tags shorter than two bytes, so two such distinct
tags also score 1); factor 0 whenever no preference or no language is
set. -/
theorem c6_language_factor (lang pref0 : Option String) :
    (language_factor lang (pref0.map rsToLower) = 2
      ↔ ∃ l p, lang = some l ∧ pref0 = some p ∧ rsToLower l = rsToLower p)
  ∧ (language_factor lang (pref0.map rsToLower) = 1
      ↔ ∃ l p, lang = some l ∧ pref0 = some p ∧ rsToLower l ≠ rsToLower p
          ∧ rustGet02 (rsToLower l) = rustGet02 (rsToLower p))
  ∧ ((lang = none ∨ pref0 = none) → language_factor lang (pref0.map rsToLower) = 0) := by
  rcases lang with _ | l <;> rcases pref0 with _ | p
  · exact ⟨by simp [language_factor], by simp [language_factor], fun _ => rfl⟩
  · exact ⟨by simp [language_factor], by simp [language_factor], fun _ => rfl⟩
  · exact ⟨by simp [language_factor], by simp [language_factor], fun _ => rfl⟩
  · refine ⟨?_, ?_, ?_⟩
    · simp only [language_factor, Option.map_some', Option.some.injEq]
      by_cases h2 : rsToLower l = rsToLower p <;>
        by_cases h1 : rustGet02 (rsToLower l) = rustGet02 (rsToLower p) <;>
        simp [h2, h1]
    · simp only [language_factor, Option.map_some', Option.some.injEq]
      by_cases h2 : rsToLower l = rsToLower p <;>
        by_cases h1 : rustGet02 (rsToLower l) = rustGet02 (rsToLower p) <;>
        simp [h2, h1]
    · intro h
      rcases h with h | h <;> simp at h

/-- C6, witness: an absent language yields factor 0, via the amended
theorem. -/
theorem c6_witness : language_factor none ((some "en").map rsToLower) = 0 :=
  (c6_language_factor none (some "en")).2.2 (Or.inl rfl)

/-- C7, counterexample: only the first segment is consulted: a Dash
rendition whose second segment URI ends in `.mp4` still resolves to the
Dash default `m4s`. -/
theorem c7_counterexample :
    mpxDash.ext = "m4s"
  ∧ mpxDash.playlist_type = .Dash
  ∧ mpxDash.extension = none
  ∧ (∃ s ∈ mpxDash.segments, rsEndsWith s.uri ".mp4" = true)
  ∧ "m4s" ≠ "mp4" := by decide

/-- C7 (amended): when no explicit extension is set and the FIRST
segment's URI, or that segment's initialization-segment URI, ends in
`.mp4`, `extension()` returns `mp4` — regardless of `playlist_type`. -/
theorem c7_ext_first_segment (m : MediaPlaylist) (seg : Segment)
    (hx : m.extension = none) (h0 : m.segments.head? = some seg)
    (h : rsEndsWith seg.uri ".mp4" = true
        ∨ ∃ init, seg.map = some init ∧ rsEndsWith init.uri ".mp4" = true) :
    m.ext = "mp4" := by
  rcases h with h | ⟨init, hm, hi⟩
  · simp [MediaPlaylist.ext, hx, h0, h]
  · simp only [MediaPlaylist.ext, hx, h0, hm, hi, if_pos]
    split <;> rfl

/-- C7, witness: a Dash rendition whose first segment URI is `b.mp4`
resolves to `mp4`. -/
theorem c7_witness :
    mpyDash.extension = none
  ∧ mpyDash.segments.head? = some sgMp4
  ∧ rsEndsWith sgMp4.uri ".mp4" = true
  ∧ mpyDash.ext = "mp4" :=
  ⟨by decide, by decide, by decide,
   c7_ext_first_segment mpyDash sgMp4 (by decide) (by decide) (Or.inl (by decide))⟩

/-- C9: indices hitting no section range are skipped by the selection
loop; tokens that do not parse contribute nothing to the index list; and
when the valid selection run succeeds, `select_streams` returns `Ok` with
exactly those selections, in input order. -/
theorem c9_best_effort :
    (∀ (ranges : (Nat × Nat) × (Nat × Nat) × (Nat × Nat)) (idxs : List Nat)
        (st : SelectState),
        select_loop ranges idxs st = select_loop ranges (idxs.filter fun i =>
          inRange ranges.1 i || inRange ranges.2.1 i || inRange ranges.2.2 i) st)
  ∧ (∀ (pre suf : List String) (junk : String), rsParseUsize (rsTrim junk) = none →
        ((pre ++ junk :: suf).filterMap fun x => rsParseUsize (rsTrim x))
          = ((pre ++ suf).filterMap fun x => rsParseUsize (rsTrim x)))
  ∧ (∀ (mp : MasterPlaylist) (q : Quality) (input : String)
        (r : List MediaPlaylist × List MediaPlaylist) (d : Nat),
        default_video_stream_index q (streamsOfType mp .Video) = some d →
        rsTrim input ≠ "" →
        select_loop
          (choices_with_default_ranges (streamsOfType mp .Video).length
            (streamsOfType mp .Audio).length (streamsOfType mp .Subtitles).length true)
          (parse_input (rsTrim input))
          (initState (streamsOfType mp .Video) (streamsOfType mp .Audio)
            (streamsOfType mp .Subtitles)) = some r →
        mp.select_streams q false true input = .ok r) := by
  refine ⟨?_, ?_, ?_⟩
  · intro ranges idxs
    induction idxs with
    | nil => intro st; rfl
    | cons i rest ih =>
      intro st
      by_cases hp : (inRange ranges.1 i || inRange ranges.2.1 i || inRange ranges.2.2 i) = true
      · rw [List.filter_cons, if_pos hp]
        cases hs : select_step ranges i st with
        | none => simp only [select_loop, hs]
        | some st' =>
          simp only [select_loop, hs]
          exact ih st'
      · simp only [Bool.or_eq_true, not_or, Bool.not_eq_true] at hp
        rw [List.filter_cons, if_neg (by simp [hp.1.1, hp.1.2, hp.2])]
        simp only [select_loop, select_step_skip ranges i st hp.1.1 hp.1.2 hp.2]
        exact ih st
  · intro pre suf junk h
    simp [List.filterMap_append, List.filterMap_cons, h]
  · intro mp q input r d hd hin hloop
    have hbeq : (rsTrim input == "") = false := beq_eq_false_iff_ne.mpr hin
    simp [MasterPlaylist.select_streams, hd, hbeq, hloop]

/-- C9, witness: the scripted input `x, 2 ,99,0,5` (a non-integer token,
an in-range index, two out-of-range indices, a subtitle index) yields the
second video and the subtitle, with no abort. -/
theorem c9_witness :
    mpC5.select_streams .Highest false true "x, 2 ,99,0,5" = .ok ([v1], [s0]) :=
  (c9_best_effort).2.2 mpC5 .Highest "x, 2 ,99,0,5" ([v1], [s0]) 0
    (by decide) (by decide) (by decide)

/-- C10, counterexample: the claim's precondition
`previous_byterange_end + length ≥ 1` is not sufficient: at
`prev = 2^64 - 1`, `length = 2` the u64 addition wraps and the returned
cursor is 0, not `start + length - 1`. -/
theorem c10_counterexample :
    segTwo.seg_range (U64 - 1) = some (bytesHeader (U64 - 1) 0, 0)
  ∧ 0 + 1 ≠ (U64 - 1) + 2
  ∧ 1 ≤ (U64 - 1) + 2 := by decide

/-- C10 (amended): in the contiguous branch the cursor is computed in
wrapping u64 arithmetic; for `1 ≤ prev + length ≤ 2^64` the subtraction
does not underflow and the cursor equals `start + length - 1` (for
`seg_range` and `map_range` alike). The lower precondition is necessary:
at `prev = 0`, `length = 0` the subtraction leaves the u64 range and the
cursor wraps to `2^64 - 1`. -/
theorem c10_contiguous_cursor (seg : Segment) (br : ByteRange) (m : Map) (prev : Nat) :
    (seg.byte_range = some br → br.offset = none ∨ br.offset = some 0 →
      1 ≤ prev + br.length → prev + br.length ≤ U64 →
      seg.seg_range prev
        = some (bytesHeader prev (prev + br.length - 1), prev + br.length - 1))
  ∧ (seg.map = some m → m.byte_range = some br → br.offset = none ∨ br.offset = some 0 →
      1 ≤ prev + br.length → prev + br.length ≤ U64 →
      seg.map_range prev
        = some (bytesHeader prev (prev + br.length - 1), prev + br.length - 1))
  ∧ segZero.seg_range 0 = some (bytesHeader 0 (U64 - 1), U64 - 1) := by
  refine ⟨?_, ?_, by decide⟩
  · intro hbr ho h1 h2
    simp [Segment.seg_range, hbr, byteRangeBounds_zero br prev ho h1 h2]
  · intro hm hbr ho h1 h2
    simp [Segment.map_range, hm, hbr, byteRangeBounds_zero br prev ho h1 h2]

/-- C4: after ranking, `streams` is exactly the concatenation
[video…, audio…, subtitle…, undefined…]; each of the first three groups is
a permutation of the corresponding partition, the video group is ordered
by (resolution area, bandwidth) descending, the audio group by
(language factor, channels, bandwidth) descending, the subtitle group by
language factor descending with ties keeping their original relative
order, and the undefined group passes through untouched. The hypothesis
keeps the u64 pixel product `w * h` from wrapping. -/
theorem c4_ranking (mp : MasterPlaylist) (pa ps : Option String)
    (hA : ∀ s ∈ mp.streams, resArea s < U64) :
    (mp.sort_streams pa ps).streams
      = sortVideoGroup (streamsOfType mp .Video)
        ++ sortAudioGroup (pa.map rsToLower) (streamsOfType mp .Audio)
        ++ sortSubtitleGroup (ps.map rsToLower) (streamsOfType mp .Subtitles)
        ++ streamsOfType mp .Undefined
  ∧ List.Perm (sortVideoGroup (streamsOfType mp .Video)) (streamsOfType mp .Video)
  ∧ (sortVideoGroup (streamsOfType mp .Video)).Pairwise (fun a b =>
      resArea b ≤ resArea a ∧ (resArea a ≤ resArea b → bwKey b ≤ bwKey a))
  ∧ List.Perm (sortAudioGroup (pa.map rsToLower) (streamsOfType mp .Audio))
      (streamsOfType mp .Audio)
  ∧ (sortAudioGroup (pa.map rsToLower) (streamsOfType mp .Audio)).Pairwise (fun a b =>
      language_factor b.language (pa.map rsToLower)
          ≤ language_factor a.language (pa.map rsToLower)
      ∧ (language_factor a.language (pa.map rsToLower)
            ≤ language_factor b.language (pa.map rsToLower) →
          chKey b ≤ chKey a ∧ (chKey a ≤ chKey b → bwKey b ≤ bwKey a)))
  ∧ List.Perm (sortSubtitleGroup (ps.map rsToLower) (streamsOfType mp .Subtitles))
      (streamsOfType mp .Subtitles)
  ∧ (sortSubtitleGroup (ps.map rsToLower) (streamsOfType mp .Subtitles)).Pairwise (fun a b =>
      language_factor b.language (ps.map rsToLower)
        ≤ language_factor a.language (ps.map rsToLower))
  ∧ (∀ k, (sortSubtitleGroup (ps.map rsToLower) (streamsOfType mp .Subtitles)).filter
        (fun x => language_factor x.language (ps.map rsToLower) == k)
      = (streamsOfType mp .Subtitles).filter
        (fun x => language_factor x.language (ps.map rsToLower) == k)) := by
  refine ⟨rfl, ?_, ?_, ?_, ?_, ?_, ?_, ?_⟩
  · exact (List.mergeSort_perm _ pxDesc).trans (List.mergeSort_perm _ bwDesc)
  · have hinner := List.sorted_mergeSort bwDesc_trans bwDesc_total (streamsOfType mp .Video)
    have hr := radix_pairwise pxDesc pxDesc_trans pxDesc_total
      (fun a b => bwDesc a b = true) _ hinner
    refine List.Pairwise.imp_of_mem ?_ hr
    intro a b ha hb hab
    have haS : resArea a < U64 :=
      hA a (List.mem_filter.mp (mem_sortVideoGroup.mp ha)).1
    have hbS : resArea b < U64 :=
      hA b (List.mem_filter.mp (mem_sortVideoGroup.mp hb)).1
    obtain ⟨h1, h2⟩ := hab
    simp only [pxDesc, decide_eq_true_eq] at h1
    rw [videoPixels_eq_resArea haS, videoPixels_eq_resArea hbS] at h1
    refine ⟨h1, fun hba => ?_⟩
    have hba' : pxDesc b a = true := by
      simp only [pxDesc, decide_eq_true_eq]
      rw [videoPixels_eq_resArea haS, videoPixels_eq_resArea hbS]
      exact hba
    simpa [bwDesc, decide_eq_true_eq] using h2 hba'
  · exact ((List.mergeSort_perm _ _).trans (List.mergeSort_perm _ _)).trans
      (List.mergeSort_perm _ _)
  · have hinner := List.sorted_mergeSort bwDesc_trans bwDesc_total (streamsOfType mp .Audio)
    have h2 := radix_pairwise chDesc chDesc_trans chDesc_total
      (fun a b => bwDesc a b = true) _ hinner
    have h1 := radix_pairwise (lfDesc (pa.map rsToLower)) (lfDesc_trans _) (lfDesc_total _)
      _ _ h2
    refine h1.imp fun {a b} hab => ?_
    obtain ⟨x1, x2⟩ := hab
    simp only [lfDesc, decide_eq_true_eq] at x1
    refine ⟨x1, fun hle => ?_⟩
    have hx := x2 (by simpa [lfDesc, decide_eq_true_eq] using hle)
    obtain ⟨y1, y2⟩ := hx
    simp only [chDesc, decide_eq_true_eq] at y1
    refine ⟨y1, fun hch => ?_⟩
    have hy := y2 (by simpa [chDesc, decide_eq_true_eq] using hch)
    simpa [bwDesc, decide_eq_true_eq] using hy
  · exact List.mergeSort_perm _ _
  · have h := List.sorted_mergeSort (lfDesc_trans (ps.map rsToLower))
      (lfDesc_total (ps.map rsToLower)) (streamsOfType mp .Subtitles)
    exact h.imp fun {a b} hab => by simpa [lfDesc, decide_eq_true_eq] using hab
  · intro k
    refine mergeSort_filter_tie (lfDesc (ps.map rsToLower)) (lfDesc_trans _) (lfDesc_total _)
      _ ?_ _
    intro a b ha hb
    simp only [beq_iff_eq] at ha hb
    simp only [lfDesc, decide_eq_true_eq, ha, hb]
    exact le_refl _

/-- C4, witness: the scripted-mode fixture satisfies the no-overflow
hypothesis, and its video group sort is a permutation of the video
partition. -/
theorem c4_witness :
    (∀ s ∈ mpC5.streams, resArea s < U64)
  ∧ List.Perm (sortVideoGroup (streamsOfType mpC5 .Video)) (streamsOfType mpC5 .Video) :=
  ⟨by decide, (c4_ranking mpC5 none none (by decide)).2.1⟩

/-- C8: ranking an already-ranked playlist with the same preferred
languages reproduces the same stream order — `sort_streams` is
idempotent. -/
theorem c8_sort_idempotent (mp : MasterPlaylist) (pa ps : Option String) :
    (mp.sort_streams pa ps).sort_streams pa ps = mp.sort_streams pa ps := by
  have hstreams : (mp.sort_streams pa ps).streams
      = sortVideoGroup (streamsOfType mp .Video)
        ++ sortAudioGroup (pa.map rsToLower) (streamsOfType mp .Audio)
        ++ sortSubtitleGroup (ps.map rsToLower) (streamsOfType mp .Subtitles)
        ++ streamsOfType mp .Undefined := rfl
  have hv_yes : ∀ x ∈ sortVideoGroup (streamsOfType mp .Video),
      decide (x.media_type = MediaType.Video) = true := fun x hx =>
    decide_eq_true (mem_streamsOfType (mem_sortVideoGroup.mp hx))
  have ha_yes : ∀ x ∈ sortAudioGroup (pa.map rsToLower) (streamsOfType mp .Audio),
      decide (x.media_type = MediaType.Audio) = true := fun x hx =>
    decide_eq_true (mem_streamsOfType (mem_sortAudioGroup.mp hx))
  have hs_yes : ∀ x ∈ sortSubtitleGroup (ps.map rsToLower) (streamsOfType mp .Subtitles),
      decide (x.media_type = MediaType.Subtitles) = true := fun x hx =>
    decide_eq_true (mem_streamsOfType (mem_sortSubtitleGroup.mp hx))
  have hu_yes : ∀ x ∈ streamsOfType mp .Undefined,
      decide (x.media_type = MediaType.Undefined) = true := fun x hx =>
    decide_eq_true (mem_streamsOfType hx)
  have hof : ∀ t : MediaType, streamsOfType (mp.sort_streams pa ps) t
      = (sortVideoGroup (streamsOfType mp .Video)).filter
          (fun s => decide (s.media_type = t))
        ++ (sortAudioGroup (pa.map rsToLower) (streamsOfType mp .Audio)).filter
          (fun s => decide (s.media_type = t))
        ++ (sortSubtitleGroup (ps.map rsToLower) (streamsOfType mp .Subtitles)).filter
          (fun s => decide (s.media_type = t))
        ++ (streamsOfType mp .Undefined).filter
          (fun s => decide (s.media_type = t)) := by
    intro t
    show (mp.sort_streams pa ps).streams.filter _ = _
    rw [hstreams, List.filter_append, List.filter_append, List.filter_append]
  have hV : streamsOfType (mp.sort_streams pa ps) .Video
      = sortVideoGroup (streamsOfType mp .Video) := by
    rw [hof .Video, List.filter_eq_self.mpr hv_yes]
    rw [List.filter_eq_nil_iff.mpr (fun x hx => by simp [mem_streamsOfType (mem_sortAudioGroup.mp hx)]),
      List.filter_eq_nil_iff.mpr (fun x hx => by simp [mem_streamsOfType (mem_sortSubtitleGroup.mp hx)]),
      List.filter_eq_nil_iff.mpr (fun x hx => by simp [mem_streamsOfType hx])]
    simp
  have hAu : streamsOfType (mp.sort_streams pa ps) .Audio
      = sortAudioGroup (pa.map rsToLower) (streamsOfType mp .Audio) := by
    rw [hof .Audio, List.filter_eq_self.mpr ha_yes]
    rw [List.filter_eq_nil_iff.mpr (fun x hx => by simp [mem_streamsOfType (mem_sortVideoGroup.mp hx)]),
      List.filter_eq_nil_iff.mpr (fun x hx => by simp [mem_streamsOfType (mem_sortSubtitleGroup.mp hx)]),
      List.filter_eq_nil_iff.mpr (fun x hx => by simp [mem_streamsOfType hx])]
    simp
  have hS : streamsOfType (mp.sort_streams pa ps) .Subtitles
      = sortSubtitleGroup (ps.map rsToLower) (streamsOfType mp .Subtitles) := by
    rw [hof .Subtitles, List.filter_eq_self.mpr hs_yes]
    rw [List.filter_eq_nil_iff.mpr (fun x hx => by simp [mem_streamsOfType (mem_sortVideoGroup.mp hx)]),
      List.filter_eq_nil_iff.mpr (fun x hx => by simp [mem_streamsOfType (mem_sortAudioGroup.mp hx)]),
      List.filter_eq_nil_iff.mpr (fun x hx => by simp [mem_streamsOfType hx])]
    simp
  have hU : streamsOfType (mp.sort_streams pa ps) .Undefined
      = streamsOfType mp .Undefined := by
    rw [hof .Undefined, List.filter_eq_self.mpr hu_yes]
    rw [List.filter_eq_nil_iff.mpr (fun x hx => by simp [mem_streamsOfType (mem_sortVideoGroup.mp hx)]),
      List.filter_eq_nil_iff.mpr (fun x hx => by simp [mem_streamsOfType (mem_sortAudioGroup.mp hx)]),
      List.filter_eq_nil_iff.mpr (fun x hx => by simp [mem_streamsOfType (mem_sortSubtitleGroup.mp hx)])]
    simp
  have hqV := radix_pairwise pxDesc pxDesc_trans pxDesc_total
    (fun a b => bwDesc a b = true) _
    (List.sorted_mergeSort bwDesc_trans bwDesc_total (streamsOfType mp .Video))
  have hidemV : sortVideoGroup (sortVideoGroup (streamsOfType mp .Video))
      = sortVideoGroup (streamsOfType mp .Video) :=
    twoPass_idem pxDesc bwDesc pxDesc_trans pxDesc_total bwDesc_trans bwDesc_total _ hqV
  have hqA := radix_pairwise (lfDesc (pa.map rsToLower)) (lfDesc_trans _) (lfDesc_total _)
    _ _
    (radix_pairwise chDesc chDesc_trans chDesc_total (fun a b => bwDesc a b = true) _
      (List.sorted_mergeSort bwDesc_trans bwDesc_total (streamsOfType mp .Audio)))
  have hidemA : sortAudioGroup (pa.map rsToLower)
        (sortAudioGroup (pa.map rsToLower) (streamsOfType mp .Audio))
      = sortAudioGroup (pa.map rsToLower) (streamsOfType mp .Audio) :=
    threePass_idem (lfDesc (pa.map rsToLower)) chDesc bwDesc
      (lfDesc_trans _) (lfDesc_total _) chDesc_trans chDesc_total
      bwDesc_trans bwDesc_total _ hqA
  have hidemS : sortSubtitleGroup (ps.map rsToLower)
        (sortSubtitleGroup (ps.map rsToLower) (streamsOfType mp .Subtitles))
      = sortSubtitleGroup (ps.map rsToLower) (streamsOfType mp .Subtitles) :=
    List.mergeSort_of_sorted
      (List.sorted_mergeSort (lfDesc_trans _) (lfDesc_total _) (streamsOfType mp .Subtitles))
  have hfields : ∀ m1 m2 : MasterPlaylist, m1.playlist_type = m2.playlist_type →
      m1.uri = m2.uri → m1.streams = m2.streams → m1 = m2 := by
    intro m1 m2 h1 h2 h3
    cases m1
    cases m2
    simp_all
  refine hfields _ _ rfl rfl ?_
  show sortVideoGroup (streamsOfType (mp.sort_streams pa ps) .Video)
      ++ sortAudioGroup (pa.map rsToLower) (streamsOfType (mp.sort_streams pa ps) .Audio)
      ++ sortSubtitleGroup (ps.map rsToLower) (streamsOfType (mp.sort_streams pa ps) .Subtitles)
      ++ streamsOfType (mp.sort_streams pa ps) .Undefined
    = (mp.sort_streams pa ps).streams
  rw [hV, hAu, hS, hU, hidemV, hidemA, hidemS, ← hstreams]

/-- C10, witness: a segment-level contiguous range from cursor 0 with
length 50 yields cursor 49. -/
theorem c10_witness :
    segFifty.seg_range 0 = some (bytesHeader 0 49, 49) := by
  have h := (c10_contiguous_cursor segFifty ⟨50, none⟩ ⟨"", none⟩ 0).1 rfl
    (Or.inl rfl) (by decide) (by decide)
  simpa using h

end Vsd
